import Mathlib

/-!
Verification of the PDF document splitter (`pdf_splitter.py`).

A source PDF is modelled by its page count `n : Nat`; its pages are
identified with the 1-indexed page numbers `1..n`.  Page numbers coming
from the classifier's JSON are arbitrary integers, so pages are `Int`
throughout.  An extraction writes source pages to a new file; we record
the list of 1-indexed source page numbers written, in the order the code
adds them.  `Option` models Python exception behaviour: `none` means the
call raised (and wrote no output file), `some pages` means it returned
normally after writing a file containing exactly `pages`.  External I/O
failures (unreadable source, failed write) are modelled by a success
oracle `ok : Nat -> Bool` indexed by the number of extraction calls made
so far during one run of `split_pdf_documents`.
-/

/-- Python `range` starting at `a` with `k` elements: `a, a+1, ..., a+k-1`. -/
def rangeFrom (a : Int) : Nat → List Int
  | 0 => []
  | k + 1 => a :: rangeFrom (a + 1) k

/-- Python `range(a, b)`: the integers `a, a+1, ..., b-1` (empty when `b ≤ a`). -/
def pyRange (a b : Int) : List Int := rangeFrom a (b - a).toNat

/-- Python list indexing `pdf_reader.pages[i]` for a PDF with `n` pages,
returned as the 1-indexed page number.  A non-negative index `i` selects
page `i+1`; a negative index selects from the end (`pages[-1]` is page
`n`); an index below `-n` raises `IndexError`, modelled as `none`.
The caller guarantees `i < n`. -/
def pageAt (n : Nat) (i : Int) : Option Int :=
  if 0 ≤ i then some (i + 1)
  else if 0 ≤ (n : Int) + i then some ((n : Int) + i + 1)
  else none

/-- The page-adding loop of `split_pdf_by_pages` (pdf_splitter.py lines
181-184): for each `page_num` in the given index list, indices `≥ n` are
silently skipped (`if page_num < len(pdf_reader.pages)`), others are
looked up with Python indexing; an `IndexError` aborts the whole call
(`none`), otherwise the 1-indexed pages added are returned in order. -/
def addPages (n : Nat) : List Int → Option (List Int)
  | [] => some []
  | i :: rest =>
    if i < (n : Int) then
      match pageAt n i with
      | some p => (addPages n rest).map (fun l => p :: l)
      | none => none
    else addPages n rest

/-- `DocumentProcessor.split_pdf_by_pages` (pdf_splitter.py lines 172-195)
on a source with `n` pages, restricted to its page-selection behaviour:
it iterates `range(page_ranges[0] - 1, page_ranges[1])`, adds every index
that is `< n`, writes the resulting file and returns its path.  There is
no range validation: out-of-range high indices are silently skipped.
`none` models the `except` branch (call raised, no file written);
`some pages` models a successful write of exactly `pages`. -/
def split_pdf_by_pages (n : Nat) (start_page end_page : Int) : Option (List Int) :=
  addPages n (pyRange (start_page - 1) end_page)

/-- Python `min` over a non-empty list of ints (the `[]` case is never
reached by the code, which guards with a non-emptiness check; `0` is an
arbitrary value for totality). -/
def listMin : List Int → Int
  | [] => 0
  | x :: xs => xs.foldl min x

/-- Python `max` over a non-empty list of ints (see `listMin`). -/
def listMax : List Int → Int
  | [] => 0
  | x :: xs => xs.foldl max x

/-- One candidate document bucket from the classifier's JSON (`documents`
entry): `document_type`, `page_numbers`, `suggested_filename`, `reason`.
A missing `page_numbers` key (`doc.get("page_numbers", [])`) is the empty
list. -/
structure Bucket where
  document_type : String
  page_numbers : List Int
  suggested_filename : String
  reason : String
deriving DecidableEq

/-- `set(range(1, total_pages_in_pdf + 1))` (pdf_splitter.py line 347):
the full page range 1..n of the source, as the ascending list. -/
def allPagesList (n : Nat) : List Int := pyRange 1 ((n : Int) + 1)

/-- All page numbers claimed by the buckets (pdf_splitter.py lines
341-344).  The code collects them into a Python set; we keep the list,
which is membership-equivalent. -/
def processedPages (documents : List Bucket) : List Int :=
  documents.foldr (fun d acc => d.page_numbers ++ acc) []

/-- `sorted(list(all_pages - processed_pages))` (pdf_splitter.py line
348): the pages of 1..n not claimed by any bucket, ascending.  Filtering
the ascending `allPagesList` is exactly the sorted set difference. -/
def unclassifiedOf (n : Nat) (documents : List Bucket) : List Int :=
  (allPagesList n).filter (fun p => !((processedPages documents).contains p))

/-- The synthetic bucket appended for unclassified pages (pdf_splitter.py
lines 352-357). -/
def synthBucket (n : Nat) (documents : List Bucket) : Bucket :=
  { document_type := "Unclassified Document"
  , page_numbers := unclassifiedOf n documents
  , suggested_filename := "unclassified_document"
  , reason := "Pages not classified by the model." }

/-- The reconciliation step of `split_pdf_documents` (pdf_splitter.py
lines 337-358): if any page of 1..n is unclaimed, append one synthetic
"Unclassified Document" bucket holding the missing pages; otherwise
return the buckets unchanged. -/
def reconcile (n : Nat) (documents : List Bucket) : List Bucket :=
  if unclassifiedOf n documents = [] then documents
  else documents ++ [synthBucket n documents]

/-- Slugify a document type (pdf_splitter.py line 373): lowercase, then
`' '` and `'_'` become `'-'`. -/
def slugify (s : String) : String :=
  String.mk (s.toList.map (fun c => if c == ' ' || c == '_' then '-' else c.toLower))

/-- `"-".join(str(p) for p in l)` (pdf_splitter.py lines 375 and 406). -/
def intJoin : List Int → String
  | [] => ""
  | [p] => toString p
  | p :: ps => toString p ++ "-" ++ intJoin ps

/-- Insert into a sorted list, keeping order (helper for `sortInts`). -/
def insertSorted (x : Int) : List Int → List Int
  | [] => [x]
  | y :: ys => if x ≤ y then x :: y :: ys else y :: insertSorted x ys

/-- Python `sorted` on a list of ints. -/
def sortInts (l : List Int) : List Int := l.foldr insertSorted []

/-- One entry of the `output_files` list built by `split_pdf_documents`
(pdf_splitter.py lines 386-396 and 415-425), restricted to the fields
the specification's claims are about.  `filename` is the basename of the
written file; token counters are pass-through metadata and are omitted. -/
structure Artifact where
  filename : String
  document_type : String
  page_numbers : List Int
  original_filename : String
deriving DecidableEq

/-- The artifact recorded for one successfully extracted bucket
(pdf_splitter.py lines 372-396), for a source whose stem (filename
without directory and extension) is `orig`. -/
def mkArtifact (orig : String) (d : Bucket) : Artifact :=
  { filename := orig ++ "_" ++ slugify d.document_type ++ "_"
      ++ intJoin (sortInts d.page_numbers) ++ ".pdf"
  , document_type := d.document_type
  , page_numbers := d.page_numbers
  , original_filename := d.suggested_filename }

/-- The artifact recorded by the post-split verification pass
(pdf_splitter.py lines 404-425); `missing` is already sorted. -/
def postArtifact (orig : String) (missing : List Int) : Artifact :=
  { filename := orig ++ "_unclassified-document_" ++ intJoin missing ++ ".pdf"
  , document_type := "Unclassified Document (post-check)"
  , page_numbers := missing
  , original_filename := "unclassified_document_post_check" }

/-- One extraction call as issued by `split_pdf_documents`: the call is
wrapped in the I/O success oracle `ok` (indexed by how many extraction
calls were made before it); on `ok` failure the call behaves like the
`except` branch of `split_pdf_by_pages` (returns `None`, writes
nothing). -/
def extractOne (n : Nat) (ok : Nat → Bool) (callIdx : Nat) (s e : Int) : Option (List Int) :=
  if ok callIdx then split_pdf_by_pages n s e else none

/-- Running state of the per-bucket extraction loop of
`split_pdf_documents` (pdf_splitter.py lines 366-398): extraction calls
issued so far (as (start, end) ranges), the `written_pages` accumulator,
the `output_files` accumulator, and how many extraction calls failed. -/
structure LoopState where
  calls : List (Int × Int)
  written : List Int
  output_files : List Artifact
  failures : Nat
deriving DecidableEq

/-- The per-bucket extraction loop (pdf_splitter.py lines 366-398): skip
buckets with no pages; otherwise extract the contiguous block
`min(page_numbers)..max(page_numbers)`; on success record the artifact
and add the bucket's claimed `page_numbers` to `written_pages` (the code
uses a set; our list is membership-equivalent). -/
def splitLoop (n : Nat) (ok : Nat → Bool) (orig : String) : List Bucket → LoopState → LoopState
  | [], st => st
  | d :: rest, st =>
    if d.page_numbers = [] then splitLoop n ok orig rest st
    else
      let s := listMin d.page_numbers
      let e := listMax d.page_numbers
      match extractOne n ok st.calls.length s e with
      | some _ =>
        splitLoop n ok orig rest
          { calls := st.calls ++ [(s, e)]
          , written := st.written ++ d.page_numbers
          , output_files := st.output_files ++ [mkArtifact orig d]
          , failures := st.failures }
      | none =>
        splitLoop n ok orig rest
          { calls := st.calls ++ [(s, e)]
          , written := st.written
          , output_files := st.output_files
          , failures := st.failures + 1 }

/-- The state after reconciliation and the per-bucket extraction loop of
`split_pdf_documents`, starting from the empty state. -/
def loopPart (n : Nat) (ok : Nat → Bool) (orig : String) (documents : List Bucket) : LoopState :=
  splitLoop n ok orig (reconcile n documents) ⟨[], [], [], 0⟩

/-- `sorted(list(all_pages - written_pages))` (pdf_splitter.py line 401)
for a given loop state. -/
def missingOf (n : Nat) (st : LoopState) : List Int :=
  (allPagesList n).filter (fun p => !(st.written.contains p))

/-- The `missing_after_split` list computed by the post-split
verification (pdf_splitter.py line 401). -/
def stillMissing (n : Nat) (ok : Nat → Bool) (orig : String) (documents : List Bucket) : List Int :=
  missingOf n (loopPart n ok orig documents)

/-- Result of one run of `split_pdf_documents`: the `output_files` list
it returns, the extraction calls it issued (in order), and how many of
those calls failed. -/
structure SplitRun where
  output_files : List Artifact
  calls : List (Int × Int)
  failures : Nat
deriving DecidableEq

/-- The post-split verification pass of `split_pdf_documents`
(pdf_splitter.py lines 400-426) applied to the loop state: if any page
of 1..n is not in `written_pages`, issue exactly one corrective
extraction over `min(missing)..max(missing)` and, if it succeeds, append
the post-check artifact; a failed corrective call is not retried. -/
def assemble (n : Nat) (ok : Nat → Bool) (orig : String) (st : LoopState) : SplitRun :=
  if missingOf n st = [] then ⟨st.output_files, st.calls, st.failures⟩
  else
    match extractOne n ok st.calls.length (listMin (missingOf n st)) (listMax (missingOf n st)) with
    | some _ =>
      ⟨st.output_files ++ [postArtifact orig (missingOf n st)]
      , st.calls ++ [(listMin (missingOf n st), listMax (missingOf n st))]
      , st.failures⟩
    | none =>
      ⟨st.output_files
      , st.calls ++ [(listMin (missingOf n st), listMax (missingOf n st))]
      , st.failures + 1⟩

/-- `DocumentProcessor.split_pdf_documents` (pdf_splitter.py lines
333-430) for a source with `n` pages whose stem is `orig`:
reconciliation of the candidate buckets, the per-bucket extraction loop,
then the post-split verification pass. -/
def split_pdf_documents (n : Nat) (ok : Nat → Bool) (orig : String)
    (documents : List Bucket) : SplitRun :=
  assemble n ok orig (loopPart n ok orig documents)

/-- Union (as a list, membership-wise) of the `page_numbers` of a list of
artifacts. -/
def unionPages (arts : List Artifact) : List Int :=
  arts.foldr (fun a acc => a.page_numbers ++ acc) []

/-- I/O oracle under which every extraction call's I/O succeeds. -/
def okAll : Nat → Bool := fun _ => true

/-- I/O oracle under which the first extraction call fails and all later
ones succeed. -/
def okSkip0 : Nat → Bool := fun k => decide (0 < k)

/-- `os.path.basename` (POSIX): the part of the path after the last
`'/'`.  Left fold resetting the accumulator at each separator. -/
def basenameChars : List Char → List Char → List Char
  | [], acc => acc.reverse
  | c :: rest, acc =>
    if c == '/' then basenameChars rest [] else basenameChars rest (c :: acc)

/-- `os.path.basename(p)`. -/
def basename (p : String) : String := String.mk (basenameChars p.toList [])

/-- Drop trailing `'/'` characters (the `rstrip('/')` of
`posixpath.dirname`). -/
def rstripSlashes (cs : List Char) : List Char :=
  (cs.reverse.dropWhile (fun c => c == '/')).reverse

/-- `os.path.dirname(p)` (POSIX): everything up to the last `'/'`, with
trailing separators stripped unless the result is all separators. -/
def dirname (p : String) : String :=
  let head := (p.toList.reverse.dropWhile (fun c => !(c == '/'))).reverse
  if head.all (fun c => c == '/') then String.mk head
  else String.mk (rstripSlashes head)

/-- `os.path.splitext(name)[0]` (POSIX) for a basename: strip the part
from the last `'.'` on, provided some non-dot character precedes it. -/
def splitextBase (name : String) : String :=
  match name.toList.reverse.dropWhile (fun c => !(c == '.')) with
  | [] => name
  | _ :: stemRev =>
    if stemRev.any (fun c => !(c == '.')) then String.mk stemRev.reverse else name

/-- `os.path.join(dir, name)` (POSIX, two arguments). -/
def joinPath (dir name : String) : String :=
  if name.toList.head? = some '/' then name
  else if dir = "" then name
  else if dir.toList.getLast? = some '/' then dir ++ name
  else dir ++ "/" ++ name

/-- `DocumentProcessor.cut_pdf_by_page_numbers` (pdf_splitter.py lines
197-244).  The filesystem is modelled by `fs : String -> Option Nat`
giving the page count of each readable PDF (`none`: path missing or
unreadable, both of which make the code return `None` with no file
written).  On success the result is the path of the new file together
with the 1-indexed pages it contains.  Unlike `split_pdf_by_pages`, this
function validates `1 <= start_page <= end_page <= total_pages` (line
224) and returns `None`, writing nothing, when the check fails. -/
def cut_pdf_by_page_numbers (fs : String → Option Nat) (pdf_path : String)
    (start_page end_page : Int) : Option (String × List Int) :=
  match fs pdf_path with
  | none => none
  | some total_pages =>
    let new_filename := splitextBase (basename pdf_path) ++ "_pages_"
      ++ toString start_page ++ "_to_" ++ toString end_page
    if 1 ≤ start_page ∧ start_page ≤ end_page ∧ end_page ≤ (total_pages : Int) then
      some (joinPath (dirname pdf_path) (new_filename ++ ".pdf"),
            pyRange start_page (end_page + 1))
    else none

/-- One flat cut instruction given to `split_pdfs_by_final_paths`
(pdf_splitter.py lines 454-465).  `Option` models missing JSON keys (or
values `int()` cannot convert); `pdf_name` defaults to `"section"`;
`is_modify` is carried but never used by the function. -/
structure CutItem where
  original_file_path : Option String
  start_page : Option Int
  end_page : Option Int
  pdf_name : Option String
  is_modify : Option String
deriving DecidableEq

/-- The output path written for one valid batch cut item
(pdf_splitter.py lines 476-479). -/
def newCutPath (original_file_path pdf_name : String) (s e : Int) : String :=
  joinPath (dirname original_file_path)
    (splitextBase (basename original_file_path) ++ "_" ++ pdf_name ++ "_"
      ++ toString s ++ "_" ++ toString e ++ ".pdf")

/-- The body of the `for item in final_paths` loop of
`split_pdfs_by_final_paths` (pdf_splitter.py lines 455-495) for one
item: `error` is the single error string appended for an invalid item
(missing/unconvertible page fields raise and hit the `except` branch;
falsy required fields, a nonexistent source and an invalid range each
`continue` with their own message), `ok` is the path of the written
file.  Message texts keep the code's wording minus the Python `repr` of
the item. -/
def processItem (fs : String → Option Nat) (item : CutItem) : Except String String :=
  match item.start_page, item.end_page with
  | some start_page, some end_page =>
    let original_file_path := item.original_file_path.getD ""
    let pdf_name := item.pdf_name.getD "section"
    if original_file_path = "" ∨ start_page = 0 ∨ end_page = 0 ∨ pdf_name = "" then
      Except.error "Missing required fields in item"
    else
      match fs original_file_path with
      | none => Except.error ("Original file not found: " ++ original_file_path)
      | some total_pages =>
        if 1 ≤ start_page ∧ start_page ≤ end_page ∧ end_page ≤ (total_pages : Int) then
          Except.ok (newCutPath original_file_path pdf_name start_page end_page)
        else
          Except.error ("Invalid page range for file " ++ original_file_path)
  | _, _ => Except.error "Error processing item"

/-- The dict returned by `split_pdfs_by_final_paths`:
`split_pdf_array` and `errors`. -/
structure BatchResult where
  split_pdf_array : List String
  errors : List String
deriving DecidableEq

/-- `DocumentProcessor.split_pdfs_by_final_paths` (pdf_splitter.py lines
446-496): process the flat list of cut instructions in order, appending
each item's output path or its error string. -/
def split_pdfs_by_final_paths (fs : String → Option Nat)
    (final_paths : List CutItem) : BatchResult :=
  final_paths.foldl
    (fun acc item =>
      match processItem fs item with
      | Except.ok path => ⟨acc.split_pdf_array ++ [path], acc.errors⟩
      | Except.error e => ⟨acc.split_pdf_array, acc.errors ++ [e]⟩)
    ⟨[], []⟩

/-- The artifact produced by one batch item, if any. -/
def itemArtifact (fs : String → Option Nat) (item : CutItem) : Option String :=
  match processItem fs item with
  | Except.ok path => some path
  | Except.error _ => none

/-- The error string produced by one batch item, if any. -/
def itemError (fs : String → Option Nat) (item : CutItem) : Option String :=
  match processItem fs item with
  | Except.ok _ => none
  | Except.error e => some e

/-- A one-file filesystem used by concrete witnesses: `docs/a.pdf` is a
readable 3-page PDF, nothing else exists. -/
def fsOne : String → Option Nat :=
  fun p => if p = "docs/a.pdf" then some 3 else none

theorem mem_rangeFrom (p : Int) : ∀ (k : Nat) (a : Int), p ∈ rangeFrom a k ↔ a ≤ p ∧ p < a + k
  | 0, a => by simp [rangeFrom]
  | k + 1, a => by
    simp only [rangeFrom, List.mem_cons, mem_rangeFrom p k (a + 1)]
    omega

theorem mem_pyRange {p a b : Int} : p ∈ pyRange a b ↔ a ≤ p ∧ p < b := by
  unfold pyRange
  rw [mem_rangeFrom]
  omega

theorem rangeFrom_map_add_one : ∀ (k : Nat) (a : Int),
    (rangeFrom a k).map (fun i => i + 1) = rangeFrom (a + 1) k
  | 0, _ => rfl
  | k + 1, a => by
    simp only [rangeFrom, List.map_cons, rangeFrom_map_add_one k (a + 1)]

theorem rangeFrom_filter_lt (c : Int) : ∀ (k : Nat) (a : Int),
    (rangeFrom a k).filter (fun i => decide (i < c)) = rangeFrom a (min k (c - a).toNat)
  | 0, a => by simp [rangeFrom]
  | k + 1, a => by
    by_cases h : a < c
    · have hm : min (k + 1) (c - a).toNat = min k (c - (a + 1)).toNat + 1 := by omega
      simp only [rangeFrom, List.filter_cons, decide_eq_true h, if_true,
        rangeFrom_filter_lt c k (a + 1), hm]
    · have h0 : (c - (a + 1)).toNat = 0 := by omega
      have h1 : (c - a).toNat = 0 := by omega
      simp [rangeFrom, List.filter_cons, h, rangeFrom_filter_lt c k (a + 1), h0, h1]

theorem addPages_eq_of_nonneg (n : Nat) : ∀ (idxs : List Int), (∀ i ∈ idxs, 0 ≤ i) →
    addPages n idxs = some ((idxs.filter (fun i => decide (i < (n : Int)))).map (fun i => i + 1))
  | [], _ => rfl
  | i :: rest, h => by
    have hi : 0 ≤ i := h i (List.mem_cons_self i rest)
    have hrest := addPages_eq_of_nonneg n rest (fun j hj => h j (List.mem_cons_of_mem i hj))
    by_cases hlt : i < (n : Int)
    · simp [addPages, hlt, pageAt, hi, hrest, List.filter_cons]
    · simp [addPages, hlt, hrest, List.filter_cons]

theorem split_pdf_by_pages_clamp (n : Nat) (s e : Int) (hs : 1 ≤ s) :
    split_pdf_by_pages n s e = some (pyRange s (min e (n : Int) + 1)) := by
  unfold split_pdf_by_pages
  rw [addPages_eq_of_nonneg n _ (fun i hi => by
    have := mem_pyRange.mp hi
    omega)]
  unfold pyRange
  rw [rangeFrom_filter_lt, rangeFrom_map_add_one]
  have : min ((e - (s - 1)).toNat) (((n : Int) - (s - 1)).toNat)
      = (min e (n : Int) + 1 - s).toNat := by omega
  rw [this]
  have hss : s - 1 + 1 = s := by omega
  rw [hss]

theorem split_pdf_by_pages_ok (n : Nat) (s e : Int) (hs : 1 ≤ s) (he : e ≤ (n : Int)) :
    split_pdf_by_pages n s e = some (pyRange s (e + 1)) := by
  rw [split_pdf_by_pages_clamp n s e hs, min_eq_left he]

theorem foldl_min_le_init (x : Int) : ∀ (l : List Int), l.foldl min x ≤ x
  | [] => le_refl x
  | y :: l => le_trans (foldl_min_le_init (min x y) l) (min_le_left x y)

theorem foldl_min_le_mem (x p : Int) : ∀ (l : List Int), p ∈ l → l.foldl min x ≤ p
  | y :: l, h => by
    rcases List.mem_cons.mp h with rfl | h
    · exact le_trans (foldl_min_le_init (min x p) l) (min_le_right x p)
    · exact foldl_min_le_mem (min x y) p l h

theorem foldl_min_mem_or (x : Int) : ∀ (l : List Int), l.foldl min x = x ∨ l.foldl min x ∈ l
  | [] => Or.inl rfl
  | y :: l => by
    rcases foldl_min_mem_or (min x y) l with h | h
    · simp only [List.foldl_cons, h]
      rcases min_cases x y with ⟨h1, _⟩ | ⟨h1, _⟩
      · exact Or.inl h1
      · exact Or.inr (by simp [h1])
    · exact Or.inr (List.mem_cons_of_mem y h)

theorem init_le_foldl_max (x : Int) : ∀ (l : List Int), x ≤ l.foldl max x
  | [] => le_refl x
  | y :: l => le_trans (le_max_left x y) (init_le_foldl_max (max x y) l)

theorem mem_le_foldl_max (x p : Int) : ∀ (l : List Int), p ∈ l → p ≤ l.foldl max x
  | y :: l, h => by
    rcases List.mem_cons.mp h with rfl | h
    · exact le_trans (le_max_right x p) (init_le_foldl_max (max x p) l)
    · exact mem_le_foldl_max (max x y) p l h

theorem foldl_max_mem_or (x : Int) : ∀ (l : List Int), l.foldl max x = x ∨ l.foldl max x ∈ l
  | [] => Or.inl rfl
  | y :: l => by
    rcases foldl_max_mem_or (max x y) l with h | h
    · simp only [List.foldl_cons, h]
      rcases max_cases x y with ⟨h1, _⟩ | ⟨h1, _⟩
      · exact Or.inl h1
      · exact Or.inr (by simp [h1])
    · exact Or.inr (List.mem_cons_of_mem y h)

theorem listMin_le {pl : List Int} {p : Int} (hp : p ∈ pl) : listMin pl ≤ p := by
  cases pl with
  | nil => cases hp
  | cons x xs =>
    rcases List.mem_cons.mp hp with rfl | h
    · exact foldl_min_le_init p xs
    · exact foldl_min_le_mem x p xs h

theorem le_listMax {pl : List Int} {p : Int} (hp : p ∈ pl) : p ≤ listMax pl := by
  cases pl with
  | nil => cases hp
  | cons x xs =>
    rcases List.mem_cons.mp hp with rfl | h
    · exact init_le_foldl_max p xs
    · exact mem_le_foldl_max x p xs h

theorem listMin_mem {pl : List Int} (h : pl ≠ []) : listMin pl ∈ pl := by
  cases pl with
  | nil => exact absurd rfl h
  | cons x xs =>
    rcases foldl_min_mem_or x xs with h1 | h1
    · show xs.foldl min x ∈ x :: xs
      rw [h1]
      exact List.mem_cons_self x xs
    · exact List.mem_cons_of_mem x h1

theorem listMax_mem {pl : List Int} (h : pl ≠ []) : listMax pl ∈ pl := by
  cases pl with
  | nil => exact absurd rfl h
  | cons x xs =>
    rcases foldl_max_mem_or x xs with h1 | h1
    · show xs.foldl max x ∈ x :: xs
      rw [h1]
      exact List.mem_cons_self x xs
    · exact List.mem_cons_of_mem x h1

theorem contains_iff_mem {l : List Int} {p : Int} : l.contains p = true ↔ p ∈ l := by
  induction l with
  | nil => simp [List.contains]
  | cons x xs ih =>
    simp only [List.contains] at ih ⊢
    rw [List.elem_cons]
    by_cases h : p = x
    · simp [h]
    · have hbeq : (p == x) = false := by simpa using h
      simp [hbeq, ih, h]

theorem mem_allPagesList {n : Nat} {p : Int} : p ∈ allPagesList n ↔ 1 ≤ p ∧ p ≤ (n : Int) := by
  unfold allPagesList
  rw [mem_pyRange]
  omega

theorem unionPages_nil : unionPages [] = [] := rfl

theorem unionPages_cons (a : Artifact) (t : List Artifact) :
    unionPages (a :: t) = a.page_numbers ++ unionPages t := rfl

theorem unionPages_append : ∀ (xs ys : List Artifact),
    unionPages (xs ++ ys) = unionPages xs ++ unionPages ys
  | [], ys => rfl
  | a :: xs, ys => by
    simp [unionPages_cons, unionPages_append xs ys]

theorem mem_unionPages {p : Int} : ∀ {arts : List Artifact},
    p ∈ unionPages arts ↔ ∃ a ∈ arts, p ∈ a.page_numbers := by
  intro arts
  induction arts with
  | nil => simp [unionPages_nil]
  | cons a t ih => simp [unionPages_cons, ih]

theorem processedPages_nil : processedPages [] = [] := rfl

theorem processedPages_cons (d : Bucket) (t : List Bucket) :
    processedPages (d :: t) = d.page_numbers ++ processedPages t := rfl

theorem processedPages_append : ∀ (xs ys : List Bucket),
    processedPages (xs ++ ys) = processedPages xs ++ processedPages ys
  | [], ys => rfl
  | d :: xs, ys => by
    simp [processedPages_cons, processedPages_append xs ys]

theorem mem_processedPages {p : Int} : ∀ {ds : List Bucket},
    p ∈ processedPages ds ↔ ∃ d ∈ ds, p ∈ d.page_numbers := by
  intro ds
  induction ds with
  | nil => simp [processedPages_nil]
  | cons d t ih => simp [processedPages_cons, ih]

theorem mem_unclassifiedOf {n : Nat} {ds : List Bucket} {p : Int} :
    p ∈ unclassifiedOf n ds ↔ p ∈ allPagesList n ∧ p ∉ processedPages ds := by
  unfold unclassifiedOf
  rw [List.mem_filter]
  constructor
  · rintro ⟨h1, h2⟩
    refine ⟨h1, fun hmem => ?_⟩
    rw [Bool.not_eq_true', ← Bool.not_eq_true] at h2
    exact h2 (contains_iff_mem.mpr hmem)
  · rintro ⟨h1, h2⟩
    refine ⟨h1, ?_⟩
    rw [Bool.not_eq_true', ← Bool.not_eq_true]
    exact fun hc => h2 (contains_iff_mem.mp hc)

theorem reconcile_eq (n : Nat) (ds : List Bucket) :
    reconcile n ds = ds ∨ reconcile n ds = ds ++ [synthBucket n ds] := by
  unfold reconcile
  split
  · exact Or.inl rfl
  · exact Or.inr rfl

theorem reconcile_covers (n : Nat) (ds : List Bucket) {p : Int} (hp : p ∈ allPagesList n) :
    p ∈ processedPages (reconcile n ds) := by
  unfold reconcile
  by_cases h : unclassifiedOf n ds = []
  · rw [if_pos h]
    by_contra hnp
    have hm : p ∈ unclassifiedOf n ds := mem_unclassifiedOf.mpr ⟨hp, hnp⟩
    rw [h] at hm
    exact absurd hm (List.not_mem_nil p)
  · rw [if_neg h, processedPages_append]
    by_cases hp2 : p ∈ processedPages ds
    · exact List.mem_append_left _ hp2
    · refine List.mem_append_right _ ?_
      have hm : p ∈ unclassifiedOf n ds := mem_unclassifiedOf.mpr ⟨hp, hp2⟩
      simpa [processedPages_cons, processedPages_nil, synthBucket] using hm

theorem reconcile_valid (n : Nat) (ds : List Bucket)
    (hv : ∀ d ∈ ds, ∀ p ∈ d.page_numbers, p ∈ allPagesList n) :
    ∀ d ∈ reconcile n ds, ∀ p ∈ d.page_numbers, p ∈ allPagesList n := by
  rcases reconcile_eq n ds with h | h <;> rw [h]
  · exact hv
  · intro d hd p hp
    rcases List.mem_append.mp hd with hd | hd
    · exact hv d hd p hp
    · rcases List.mem_singleton.mp hd with rfl
      have : p ∈ unclassifiedOf n ds := hp
      exact (mem_unclassifiedOf.mp this).1

theorem processedPages_subset_of_valid {n : Nat} {ds : List Bucket}
    (hv : ∀ d ∈ ds, ∀ p ∈ d.page_numbers, p ∈ allPagesList n) :
    ∀ p ∈ processedPages ds, p ∈ allPagesList n := by
  intro p hp
  rcases mem_processedPages.mp hp with ⟨d, hd, hpd⟩
  exact hv d hd p hpd

theorem splitLoop_append (n : Nat) (ok : Nat → Bool) (orig : String) :
    ∀ (xs ys : List Bucket) (st : LoopState),
    splitLoop n ok orig (xs ++ ys) st = splitLoop n ok orig ys (splitLoop n ok orig xs st)
  | [], _, _ => rfl
  | d :: xs, ys, st => by
    by_cases h : d.page_numbers = []
    · simp only [List.cons_append, splitLoop, if_pos h]
      exact splitLoop_append n ok orig xs ys st
    · simp only [List.cons_append, splitLoop, if_neg h]
      cases hE : extractOne n ok st.calls.length (listMin d.page_numbers) (listMax d.page_numbers) with
      | some v =>
        simp only [hE]
        exact splitLoop_append n ok orig xs ys _
      | none =>
        simp only [hE]
        exact splitLoop_append n ok orig xs ys _

theorem splitLoop_failures_mono (n : Nat) (ok : Nat → Bool) (orig : String) :
    ∀ (ds : List Bucket) (st : LoopState),
    st.failures ≤ (splitLoop n ok orig ds st).failures
  | [], _ => le_refl _
  | d :: ds, st => by
    by_cases h : d.page_numbers = []
    · simp only [splitLoop, if_pos h]
      exact splitLoop_failures_mono n ok orig ds st
    · simp only [splitLoop, if_neg h]
      cases hE : extractOne n ok st.calls.length (listMin d.page_numbers) (listMax d.page_numbers) with
      | some v =>
        simp only [hE]
        exact splitLoop_failures_mono n ok orig ds
          { calls := st.calls ++ [(listMin d.page_numbers, listMax d.page_numbers)]
          , written := st.written ++ d.page_numbers
          , output_files := st.output_files ++ [mkArtifact orig d]
          , failures := st.failures }
      | none =>
        simp only [hE]
        exact le_trans (Nat.le_succ _) (splitLoop_failures_mono n ok orig ds
          { calls := st.calls ++ [(listMin d.page_numbers, listMax d.page_numbers)]
          , written := st.written
          , output_files := st.output_files
          , failures := st.failures + 1 })

theorem splitLoop_no_fail_mem (n : Nat) (ok : Nat → Bool) (orig : String) :
    ∀ (ds : List Bucket) (st : LoopState),
    (splitLoop n ok orig ds st).failures = st.failures →
    (∀ p : Int, (p ∈ (splitLoop n ok orig ds st).written ↔
        p ∈ st.written ∨ p ∈ processedPages ds)) ∧
    (∀ p : Int, (p ∈ unionPages (splitLoop n ok orig ds st).output_files ↔
        p ∈ unionPages st.output_files ∨ p ∈ processedPages ds))
  | [], st, _ => by
    constructor <;> intro p <;> simp [splitLoop, processedPages_nil]
  | d :: ds, st, h => by
    by_cases hd : d.page_numbers = []
    · rw [show splitLoop n ok orig (d :: ds) st = splitLoop n ok orig ds st from by
        simp only [splitLoop, if_pos hd]] at h ⊢
      have ih := splitLoop_no_fail_mem n ok orig ds st h
      constructor <;> intro p
      · rw [ih.1 p, processedPages_cons, hd]
        simp
      · rw [ih.2 p, processedPages_cons, hd]
        simp
    · cases hE : extractOne n ok st.calls.length (listMin d.page_numbers) (listMax d.page_numbers) with
      | some v =>
        rw [show splitLoop n ok orig (d :: ds) st = splitLoop n ok orig ds
            { calls := st.calls ++ [(listMin d.page_numbers, listMax d.page_numbers)]
            , written := st.written ++ d.page_numbers
            , output_files := st.output_files ++ [mkArtifact orig d]
            , failures := st.failures } from by
          simp only [splitLoop, if_neg hd, hE]] at h ⊢
        have ih := splitLoop_no_fail_mem n ok orig ds _ h
        constructor <;> intro p
        · rw [ih.1 p, processedPages_cons]
          simp only [List.mem_append]
          tauto
        · rw [ih.2 p, processedPages_cons]
          simp only [unionPages_append, unionPages_cons, unionPages_nil, List.mem_append,
            List.append_nil, mkArtifact]
          tauto
      | none =>
        exfalso
        have hstep : splitLoop n ok orig (d :: ds) st = splitLoop n ok orig ds
            { calls := st.calls ++ [(listMin d.page_numbers, listMax d.page_numbers)]
            , written := st.written
            , output_files := st.output_files
            , failures := st.failures + 1 } := by
          simp only [splitLoop, if_neg hd, hE]
        rw [hstep] at h
        have := splitLoop_failures_mono n ok orig ds
          { calls := st.calls ++ [(listMin d.page_numbers, listMax d.page_numbers)]
          , written := st.written
          , output_files := st.output_files
          , failures := st.failures + 1 }
        simp only [h] at this
        omega

theorem splitLoop_all_ok (n : Nat) (orig : String) :
    ∀ (ds : List Bucket) (st : LoopState),
    (∀ d ∈ ds, ∀ p ∈ d.page_numbers, p ∈ allPagesList n) →
    (splitLoop n okAll orig ds st).output_files
        = st.output_files ++ (ds.filter (fun d => !d.page_numbers.isEmpty)).map (mkArtifact orig) ∧
    (splitLoop n okAll orig ds st).written = st.written ++ processedPages ds ∧
    (splitLoop n okAll orig ds st).failures = st.failures
  | [], st, _ => by
    simp [splitLoop, processedPages_nil]
  | d :: ds, st, hv => by
    have hvd : ∀ p ∈ d.page_numbers, p ∈ allPagesList n :=
      hv d (List.mem_cons_self d ds)
    have hvrest : ∀ d' ∈ ds, ∀ p ∈ d'.page_numbers, p ∈ allPagesList n :=
      fun d' hd' => hv d' (List.mem_cons_of_mem d hd')
    by_cases hd : d.page_numbers = []
    · have hstep : splitLoop n okAll orig (d :: ds) st = splitLoop n okAll orig ds st := by
        simp only [splitLoop, if_pos hd]
      have ih := splitLoop_all_ok n orig ds st hvrest
      rw [hstep]
      refine ⟨?_, ?_, ih.2.2⟩
      · rw [ih.1, List.filter_cons]
        simp [hd]
      · rw [ih.2.1, processedPages_cons, hd]
        simp
    · have hmin : 1 ≤ listMin d.page_numbers :=
        (mem_allPagesList.mp (hvd _ (listMin_mem hd))).1
      have hE : extractOne n okAll st.calls.length (listMin d.page_numbers) (listMax d.page_numbers)
          = some (pyRange (listMin d.page_numbers)
              (min (listMax d.page_numbers) (n : Int) + 1)) := by
        simp only [extractOne, okAll, if_true]
        exact split_pdf_by_pages_clamp n _ _ hmin
      have hstep : splitLoop n okAll orig (d :: ds) st = splitLoop n okAll orig ds
          { calls := st.calls ++ [(listMin d.page_numbers, listMax d.page_numbers)]
          , written := st.written ++ d.page_numbers
          , output_files := st.output_files ++ [mkArtifact orig d]
          , failures := st.failures } := by
        simp only [splitLoop, if_neg hd, hE]
      have ih := splitLoop_all_ok n orig ds
        { calls := st.calls ++ [(listMin d.page_numbers, listMax d.page_numbers)]
        , written := st.written ++ d.page_numbers
        , output_files := st.output_files ++ [mkArtifact orig d]
        , failures := st.failures } hvrest
      rw [hstep]
      refine ⟨?_, ?_, ih.2.2⟩
      · rw [ih.1, List.filter_cons]
        have : (!d.page_numbers.isEmpty) = true := by
          simp [List.isEmpty_iff, hd]
        simp [this]
      · rw [ih.2.1, processedPages_cons]
        simp

theorem loopPart_no_fail (n : Nat) (ok : Nat → Bool) (orig : String) (ds : List Bucket)
    (hL : (loopPart n ok orig ds).failures = 0) :
    (∀ p : Int, p ∈ (loopPart n ok orig ds).written ↔ p ∈ processedPages (reconcile n ds)) ∧
    (∀ p : Int, p ∈ unionPages (loopPart n ok orig ds).output_files ↔
        p ∈ processedPages (reconcile n ds)) := by
  have h0 := splitLoop_no_fail_mem n ok orig (reconcile n ds) ⟨[], [], [], 0⟩ hL
  unfold loopPart
  constructor <;> intro p
  · rw [h0.1 p]
    simp
  · rw [h0.2 p]
    simp [unionPages_nil]

theorem split_failures_zero_loop (n : Nat) (ok : Nat → Bool) (orig : String) (ds : List Bucket)
    (h : (split_pdf_documents n ok orig ds).failures = 0) :
    (loopPart n ok orig ds).failures = 0 := by
  unfold split_pdf_documents assemble at h
  by_cases hm : missingOf n (loopPart n ok orig ds) = []
  · rw [if_pos hm] at h
    exact h
  · rw [if_neg hm] at h
    cases hE : extractOne n ok (loopPart n ok orig ds).calls.length
        (listMin (missingOf n (loopPart n ok orig ds)))
        (listMax (missingOf n (loopPart n ok orig ds))) with
    | some v =>
      simp only [hE] at h
      exact h
    | none =>
      simp only [hE] at h
      omega

theorem stillMissing_nil_of_no_fail (n : Nat) (ok : Nat → Bool) (orig : String) (ds : List Bucket)
    (hL : (loopPart n ok orig ds).failures = 0) :
    stillMissing n ok orig ds = [] := by
  unfold stillMissing missingOf
  rw [List.filter_eq_nil_iff]
  intro p hp
  have hw : p ∈ (loopPart n ok orig ds).written :=
    ((loopPart_no_fail n ok orig ds hL).1 p).mpr (reconcile_covers n ds hp)
  have hc : (loopPart n ok orig ds).written.contains p = true := contains_iff_mem.mpr hw
  simpa [hc] using hw

theorem split_output_no_fail (n : Nat) (ok : Nat → Bool) (orig : String) (ds : List Bucket)
    (h : (split_pdf_documents n ok orig ds).failures = 0) :
    (split_pdf_documents n ok orig ds).output_files = (loopPart n ok orig ds).output_files := by
  have hL := split_failures_zero_loop n ok orig ds h
  have hm := stillMissing_nil_of_no_fail n ok orig ds hL
  unfold stillMissing at hm
  unfold split_pdf_documents assemble
  rw [if_pos hm]

/-- C1: for a source PDF with `n ≥ 1` pages and any candidate bucket
sequence (each bucket's pages lying in the source's page range 1..n, the
`PageSet` well-formedness of the specification's data model), if every
extraction call performed by `split_pdf_documents` succeeds, the union
of `page_numbers` over the returned artifacts is exactly the page set
1..n: no page of the source is missing from the output. -/
theorem splitter_full_coverage (n : Nat) (ok : Nat → Bool) (orig : String)
    (documents : List Bucket)
    (_hn : 1 ≤ n)
    (hvalid : ∀ d ∈ documents, ∀ p ∈ d.page_numbers, p ∈ allPagesList n)
    (hok : (split_pdf_documents n ok orig documents).failures = 0) :
    ∀ p : Int, p ∈ unionPages (split_pdf_documents n ok orig documents).output_files
      ↔ p ∈ allPagesList n := by
  have hL := split_failures_zero_loop n ok orig documents hok
  have hmem := (loopPart_no_fail n ok orig documents hL).2
  intro p
  rw [split_output_no_fail n ok orig documents hok, hmem p]
  constructor
  · exact fun hp => processedPages_subset_of_valid (reconcile_valid n documents hvalid) p hp
  · exact fun hp => reconcile_covers n documents hp

theorem splitter_full_coverage_witness :
    (1 : Int) ∈ unionPages
      (split_pdf_documents 2 okAll "combined" [⟨"Invoice", [1], "invoice", "r"⟩]).output_files :=
  (splitter_full_coverage 2 okAll "combined" [⟨"Invoice", [1], "invoice", "r"⟩]
    (by decide) (by decide) (by decide) 1).mpr (by decide)

/-- C2: the reconciliation step computes the missing pages as the set
difference of 1..n and the union of the buckets' claimed pages; when
non-empty it appends exactly one synthetic bucket, last, with type
"Unclassified Document", the missing pages, filename
"unclassified_document" and the fixed reason text; when empty it returns
the input sequence unchanged. -/
theorem reconcile_spec (n : Nat) (documents : List Bucket) :
    (∀ p : Int, p ∈ unclassifiedOf n documents ↔
        p ∈ allPagesList n ∧ p ∉ processedPages documents)
    ∧ (unclassifiedOf n documents ≠ [] →
        reconcile n documents = documents ++
          [{ document_type := "Unclassified Document"
           , page_numbers := unclassifiedOf n documents
           , suggested_filename := "unclassified_document"
           , reason := "Pages not classified by the model." }])
    ∧ (unclassifiedOf n documents = [] → reconcile n documents = documents) := by
  refine ⟨fun p => mem_unclassifiedOf, fun h => ?_, fun h => ?_⟩
  · unfold reconcile
    rw [if_neg h]
    rfl
  · unfold reconcile
    rw [if_pos h]

theorem reconcile_spec_witness :
    reconcile 2 [] =
      [{ document_type := "Unclassified Document",
         page_numbers := [1, 2],
         suggested_filename := "unclassified_document",
         reason := "Pages not classified by the model." }] := by
  rw [(reconcile_spec 2 []).2.1 (by decide)]
  decide

/-- C6: the reconciliation step is idempotent — applying it to its own
output returns that output unchanged (and, being a function of
(n, documents) alone, its synthetic-bucket construction is
deterministic). -/
theorem reconcile_idempotent (n : Nat) (documents : List Bucket) :
    reconcile n (reconcile n documents) = reconcile n documents := by
  by_cases h : unclassifiedOf n documents = []
  · have h1 : reconcile n documents = documents := by
      unfold reconcile
      rw [if_pos h]
    rw [h1, h1]
  · have h1 : reconcile n documents = documents ++ [synthBucket n documents] := by
      unfold reconcile
      rw [if_neg h]
    have h2 : unclassifiedOf n (documents ++ [synthBucket n documents]) = [] := by
      unfold unclassifiedOf
      rw [List.filter_eq_nil_iff]
      intro p hp
      have hc : p ∈ processedPages (documents ++ [synthBucket n documents]) := by
        have := reconcile_covers n documents hp
        rwa [h1] at this
      have hb : (processedPages (documents ++ [synthBucket n documents])).contains p = true :=
        contains_iff_mem.mpr hc
      simpa [hb] using hc
    calc reconcile n (reconcile n documents)
        = reconcile n (documents ++ [synthBucket n documents]) := by rw [h1]
      _ = documents ++ [synthBucket n documents] := by
          unfold reconcile
          rw [if_pos h2]
      _ = reconcile n documents := h1.symm

/-- C5: when the post-split verification finds pages still missing, it
performs exactly one corrective extraction over
`min(still_missing)..max(still_missing)` (the calls trace grows by
exactly that one call, whether it succeeds or fails — no retries); if
that call succeeds, exactly one "Unclassified Document (post-check)"
artifact is appended, last, to the result set; if it fails, the result
set is unchanged. -/
theorem post_split_verifier_spec (n : Nat) (ok : Nat → Bool) (orig : String)
    (documents : List Bucket)
    (h : stillMissing n ok orig documents ≠ []) :
    (split_pdf_documents n ok orig documents).calls
        = (loopPart n ok orig documents).calls
          ++ [(listMin (stillMissing n ok orig documents),
               listMax (stillMissing n ok orig documents))]
    ∧ ((extractOne n ok (loopPart n ok orig documents).calls.length
          (listMin (stillMissing n ok orig documents))
          (listMax (stillMissing n ok orig documents))).isSome →
        (split_pdf_documents n ok orig documents).output_files
          = (loopPart n ok orig documents).output_files
            ++ [postArtifact orig (stillMissing n ok orig documents)])
    ∧ (extractOne n ok (loopPart n ok orig documents).calls.length
          (listMin (stillMissing n ok orig documents))
          (listMax (stillMissing n ok orig documents)) = none →
        (split_pdf_documents n ok orig documents).output_files
          = (loopPart n ok orig documents).output_files) := by
  unfold stillMissing at h ⊢
  unfold split_pdf_documents assemble
  rw [if_neg h]
  cases hE : extractOne n ok (loopPart n ok orig documents).calls.length
      (listMin (missingOf n (loopPart n ok orig documents)))
      (listMax (missingOf n (loopPart n ok orig documents))) with
  | some v =>
    exact ⟨rfl, fun _ => rfl, fun hC => nomatch hC⟩
  | none =>
    exact ⟨rfl, fun hS => by simp at hS, fun _ => rfl⟩

theorem post_split_verifier_spec_witness :
    (split_pdf_documents 2 okSkip0 "d" []).calls
      = (loopPart 2 okSkip0 "d" []).calls
        ++ [(listMin (stillMissing 2 okSkip0 "d" []),
             listMax (stillMissing 2 okSkip0 "d" []))] :=
  (post_split_verifier_spec 2 okSkip0 "d" [] (by decide)).1

theorem splitLoop_skip_middle (n : Nat) (ok : Nat → Bool) (orig : String) (b : Bucket)
    (hb : b.page_numbers = []) (xs ys : List Bucket) (st : LoopState) :
    splitLoop n ok orig (xs ++ b :: ys) st = splitLoop n ok orig (xs ++ ys) st := by
  rw [splitLoop_append n ok orig xs (b :: ys) st, splitLoop_append n ok orig xs ys st]
  simp only [splitLoop, if_pos hb]

/-- C10: a candidate bucket whose `page_numbers` list is empty (or whose
key is absent, which the code reads as the empty list) is skipped by the
extraction loop: the whole split run — artifacts, extraction calls and
failures — is identical to the run without that bucket; no error is
signalled. -/
theorem empty_bucket_skipped (n : Nat) (ok : Nat → Bool) (orig : String)
    (l₁ l₂ : List Bucket) (b : Bucket) (hb : b.page_numbers = []) :
    split_pdf_documents n ok orig (l₁ ++ b :: l₂)
      = split_pdf_documents n ok orig (l₁ ++ l₂) := by
  have hpp : processedPages (l₁ ++ b :: l₂) = processedPages (l₁ ++ l₂) := by
    rw [processedPages_append, processedPages_append, processedPages_cons, hb]
    simp
  have hun : unclassifiedOf n (l₁ ++ b :: l₂) = unclassifiedOf n (l₁ ++ l₂) := by
    unfold unclassifiedOf
    rw [hpp]
  have hsynth : synthBucket n (l₁ ++ b :: l₂) = synthBucket n (l₁ ++ l₂) := by
    unfold synthBucket
    rw [hun]
  suffices hloop : loopPart n ok orig (l₁ ++ b :: l₂) = loopPart n ok orig (l₁ ++ l₂) by
    unfold split_pdf_documents
    rw [hloop]
  unfold loopPart reconcile
  rw [hun, hsynth]
  by_cases hc : unclassifiedOf n (l₁ ++ l₂) = []
  · rw [if_pos hc, if_pos hc]
    exact splitLoop_skip_middle n ok orig b hb l₁ l₂ _
  · rw [if_neg hc, if_neg hc]
    rw [show (l₁ ++ b :: l₂) ++ [synthBucket n (l₁ ++ l₂)]
        = l₁ ++ b :: (l₂ ++ [synthBucket n (l₁ ++ l₂)]) from by simp]
    rw [show (l₁ ++ l₂) ++ [synthBucket n (l₁ ++ l₂)]
        = l₁ ++ (l₂ ++ [synthBucket n (l₁ ++ l₂)]) from by simp]
    exact splitLoop_skip_middle n ok orig b hb l₁ (l₂ ++ [synthBucket n (l₁ ++ l₂)]) _

theorem empty_bucket_skipped_witness :
    split_pdf_documents 1 okAll "d" [⟨"Empty", [], "e", "r"⟩, ⟨"A", [1], "a", "r"⟩]
      = split_pdf_documents 1 okAll "d" [⟨"A", [1], "a", "r"⟩] :=
  empty_bucket_skipped 1 okAll "d" [] [⟨"A", [1], "a", "r"⟩] ⟨"Empty", [], "e", "r"⟩ rfl

/-- C3 counterexample: on a 1-page source, the split pipeline's
extraction request for pages 1..2 — whose highest page exceeds the page
count — does not fail: `split_pdf_by_pages` succeeds and writes a file
containing page 1 only, silently clamping the range, contradicting the
claim that every such request fails with no output file. -/
theorem extraction_validation_counterexample : split_pdf_by_pages 1 1 2 = some [1] := by
  decide

/-- C3 (amended): the exposed cut operation
(`cut_pdf_by_page_numbers`) does validate `1 ≤ start ≤ end ≤ N` and
fails with no output file on any violation (and also fails when the
source does not exist); but the split pipeline's extraction helper
(`split_pdf_by_pages`) performs no range validation at all — for any
request with `start ≥ 1` it succeeds and silently clamps, writing the
pages `start..min(end, N)`. -/
theorem extraction_validation_amended :
    (∀ (fs : String → Option Nat) (path : String) (s e : Int) (total : Nat),
        fs path = some total → ¬(1 ≤ s ∧ s ≤ e ∧ e ≤ (total : Int)) →
        cut_pdf_by_page_numbers fs path s e = none)
    ∧ (∀ (fs : String → Option Nat) (path : String) (s e : Int),
        fs path = none → cut_pdf_by_page_numbers fs path s e = none)
    ∧ (∀ (n : Nat) (s e : Int), 1 ≤ s →
        split_pdf_by_pages n s e = some (pyRange s (min e (n : Int) + 1))) := by
  refine ⟨?_, ?_, ?_⟩
  · intro fs path s e total hfs hbad
    unfold cut_pdf_by_page_numbers
    rw [hfs]
    simp [hbad]
  · intro fs path s e hfs
    unfold cut_pdf_by_page_numbers
    rw [hfs]
  · intro n s e hs
    exact split_pdf_by_pages_clamp n s e hs

theorem extraction_validation_amended_witness :
    cut_pdf_by_page_numbers fsOne "docs/a.pdf" 0 3 = none
    ∧ split_pdf_by_pages 1 1 2 = some [1] := by
  constructor
  · exact extraction_validation_amended.1 fsOne "docs/a.pdf" 0 3 3 (by decide) (by decide)
  · rw [extraction_validation_amended.2.2 1 1 2 (by decide)]
    decide

/-- C4: for every non-empty page set handed to the extraction step of
the split operation (pages within the source's 1..n range, the PageSet
well-formedness of the data model), the extraction call — which the loop
issues as `(min(pages), max(pages))` — writes exactly the contiguous
block `min(pages)..max(pages)` of the source, in ascending page order,
rather than exactly the listed pages when the set is non-contiguous. -/
theorem pageset_extracted_as_block (n : Nat) (pl : List Int) (hne : pl ≠ [])
    (hv : ∀ p ∈ pl, p ∈ allPagesList n) :
    split_pdf_by_pages n (listMin pl) (listMax pl)
      = some (pyRange (listMin pl) (listMax pl + 1)) := by
  have h₁ : 1 ≤ listMin pl := (mem_allPagesList.mp (hv _ (listMin_mem hne))).1
  have h₂ : listMax pl ≤ (n : Int) := (mem_allPagesList.mp (hv _ (listMax_mem hne))).2
  exact split_pdf_by_pages_ok n _ _ h₁ h₂

theorem pageset_extracted_as_block_witness :
    split_pdf_by_pages 3 (listMin [1, 3]) (listMax [1, 3]) = some [1, 2, 3] := by
  rw [pageset_extracted_as_block 3 [1, 3] (by decide) (by decide)]
  decide

/-- C7: if two buckets of the candidate sequence both claim page `p`
(buckets well-formed, every extraction I/O succeeding), the split
operation produces an artifact for each of the two buckets, both
artifacts contain page `p`, and at least two artifacts of the run
contain `p` — neither reconciliation nor extraction deduplicates
overlapping pages. -/
theorem overlap_not_deduplicated (n : Nat) (orig : String) (l₁ l₂ l₃ : List Bucket)
    (b₁ b₂ : Bucket) (p : Int)
    (hp₁ : p ∈ b₁.page_numbers) (hp₂ : p ∈ b₂.page_numbers)
    (hvalid : ∀ d ∈ l₁ ++ b₁ :: (l₂ ++ b₂ :: l₃), ∀ q ∈ d.page_numbers, q ∈ allPagesList n) :
    mkArtifact orig b₁
        ∈ (split_pdf_documents n okAll orig (l₁ ++ b₁ :: (l₂ ++ b₂ :: l₃))).output_files
    ∧ mkArtifact orig b₂
        ∈ (split_pdf_documents n okAll orig (l₁ ++ b₁ :: (l₂ ++ b₂ :: l₃))).output_files
    ∧ 2 ≤ (split_pdf_documents n okAll orig (l₁ ++ b₁ :: (l₂ ++ b₂ :: l₃))).output_files.countP
        (fun a => a.page_numbers.contains p) := by
  have hL := splitLoop_all_ok n orig (reconcile n (l₁ ++ b₁ :: (l₂ ++ b₂ :: l₃))) ⟨[], [], [], 0⟩
    (reconcile_valid n (l₁ ++ b₁ :: (l₂ ++ b₂ :: l₃)) hvalid)
  have hfail : (loopPart n okAll orig (l₁ ++ b₁ :: (l₂ ++ b₂ :: l₃))).failures = 0 := hL.2.2
  have hm := stillMissing_nil_of_no_fail n okAll orig (l₁ ++ b₁ :: (l₂ ++ b₂ :: l₃)) hfail
  unfold stillMissing at hm
  have hout : (split_pdf_documents n okAll orig (l₁ ++ b₁ :: (l₂ ++ b₂ :: l₃))).output_files
      = ((reconcile n (l₁ ++ b₁ :: (l₂ ++ b₂ :: l₃))).filter
          (fun d => !d.page_numbers.isEmpty)).map (mkArtifact orig) := by
    unfold split_pdf_documents assemble
    rw [if_pos hm]
    show (loopPart n okAll orig (l₁ ++ b₁ :: (l₂ ++ b₂ :: l₃))).output_files = _
    unfold loopPart
    rw [hL.1]
    simp
  have hne₁ : b₁.page_numbers.isEmpty = false := List.isEmpty_eq_false.mpr (List.ne_nil_of_mem hp₁)
  have hne₂ : b₂.page_numbers.isEmpty = false := List.isEmpty_eq_false.mpr (List.ne_nil_of_mem hp₂)
  have hc₁ : b₁.page_numbers.contains p = true := contains_iff_mem.mpr hp₁
  have hc₂ : b₂.page_numbers.contains p = true := contains_iff_mem.mpr hp₂
  have hmem₁ : b₁ ∈ l₁ ++ b₁ :: (l₂ ++ b₂ :: l₃) := by simp
  have hmem₂ : b₂ ∈ l₁ ++ b₁ :: (l₂ ++ b₂ :: l₃) := by simp
  rcases reconcile_eq n (l₁ ++ b₁ :: (l₂ ++ b₂ :: l₃)) with hr | hr
  all_goals {
    rw [hout, hr]
    refine ⟨?_, ?_, ?_⟩
    · refine List.mem_map_of_mem _ (List.mem_filter.mpr ⟨?_, by simp [hne₁]⟩)
      first
        | exact hmem₁
        | exact List.mem_append_left _ hmem₁
    · refine List.mem_map_of_mem _ (List.mem_filter.mpr ⟨?_, by simp [hne₂]⟩)
      first
        | exact hmem₂
        | exact List.mem_append_left _ hmem₂
    · rw [List.countP_map, List.countP_filter]
      simp only [List.countP_append, List.countP_cons, Function.comp, mkArtifact, hc₁, hc₂,
        hne₁, hne₂]
      simp only [Bool.and_true, Bool.not_false, Bool.true_and, if_true]
      omega
  }

theorem overlap_not_deduplicated_witness :
    2 ≤ (split_pdf_documents 2 okAll "d"
        [⟨"A", [1], "a", "r"⟩, ⟨"B", [1, 2], "b", "r"⟩]).output_files.countP
        (fun a => a.page_numbers.contains 1) :=
  (overlap_not_deduplicated 2 "d" [] [] [] ⟨"A", [1], "a", "r"⟩ ⟨"B", [1, 2], "b", "r"⟩ 1
    (by decide) (by decide) (by decide)).2.2

theorem batch_foldl (fs : String → Option Nat) :
    ∀ (items : List CutItem) (acc : BatchResult),
    items.foldl
      (fun acc item =>
        match processItem fs item with
        | Except.ok path => ⟨acc.split_pdf_array ++ [path], acc.errors⟩
        | Except.error e => ⟨acc.split_pdf_array, acc.errors ++ [e]⟩) acc
      = ⟨acc.split_pdf_array ++ items.filterMap (itemArtifact fs),
         acc.errors ++ items.filterMap (itemError fs)⟩
  | [], acc => by simp
  | item :: items, acc => by
    cases hE : processItem fs item with
    | ok path =>
      simp only [List.foldl_cons, hE, List.filterMap_cons, itemArtifact, itemError]
      rw [batch_foldl fs items ⟨acc.split_pdf_array ++ [path], acc.errors⟩]
      simp [itemArtifact, itemError, hE]
    | error e =>
      simp only [List.foldl_cons, hE, List.filterMap_cons, itemArtifact, itemError]
      rw [batch_foldl fs items ⟨acc.split_pdf_array, acc.errors ++ [e]⟩]
      simp [itemArtifact, itemError, hE]

theorem filterMap_length_sum (fs : String → Option Nat) :
    ∀ (items : List CutItem),
    (items.filterMap (itemArtifact fs)).length
      + (items.filterMap (itemError fs)).length = items.length
  | [] => rfl
  | item :: items => by
    have ih := filterMap_length_sum fs items
    cases hE : processItem fs item with
    | ok path =>
      simp only [List.filterMap_cons, itemArtifact, itemError, hE]
      simp only [List.length_cons]
      omega
    | error e =>
      simp only [List.filterMap_cons, itemArtifact, itemError, hE]
      simp only [List.length_cons]
      omega

/-- C8: the batch cut operation processes every item independently —
its result is exactly the per-item outcomes collected in order (each
item contributing its artifact path if `processItem` accepts it, or its
single error string if validation fails), and every item contributes
exactly one of the two, so no bad item ever aborts the batch. -/
theorem batch_items_independent (fs : String → Option Nat) (final_paths : List CutItem) :
    split_pdfs_by_final_paths fs final_paths
      = ⟨final_paths.filterMap (itemArtifact fs), final_paths.filterMap (itemError fs)⟩
    ∧ (split_pdfs_by_final_paths fs final_paths).split_pdf_array.length
        + (split_pdfs_by_final_paths fs final_paths).errors.length = final_paths.length := by
  have h := batch_foldl fs final_paths ⟨[], []⟩
  unfold split_pdfs_by_final_paths
  rw [h]
  refine ⟨by simp, ?_⟩
  simp only [List.nil_append]
  exact filterMap_length_sum fs final_paths

/-- C9: the cut operation succeeds exactly on an existing, readable
source and 1-indexed bounds `1 ≤ start ≤ end ≤ page count`, returning
the path of a new file named `<original>_pages_<start>_to_<end>.pdf`
containing pages `start..end`; it fails (returns None, writing nothing)
when the source path does not exist or the indices are out of range. -/
theorem cut_operation_spec (fs : String → Option Nat) (pdf_path : String) (s e : Int) :
    (∀ total : Nat, fs pdf_path = some total →
      ((1 ≤ s ∧ s ≤ e ∧ e ≤ (total : Int)) →
        cut_pdf_by_page_numbers fs pdf_path s e
          = some (joinPath (dirname pdf_path)
              (splitextBase (basename pdf_path) ++ "_pages_" ++ toString s ++ "_to_"
                ++ toString e ++ ".pdf"),
              pyRange s (e + 1)))
      ∧ (¬(1 ≤ s ∧ s ≤ e ∧ e ≤ (total : Int)) →
          cut_pdf_by_page_numbers fs pdf_path s e = none))
    ∧ (fs pdf_path = none → cut_pdf_by_page_numbers fs pdf_path s e = none) := by
  constructor
  · intro total hfs
    constructor
    · intro hv
      unfold cut_pdf_by_page_numbers
      rw [hfs]
      simp [hv]
    · intro hv
      unfold cut_pdf_by_page_numbers
      rw [hfs]
      simp [hv]
  · intro hfs
    unfold cut_pdf_by_page_numbers
    rw [hfs]

theorem cut_operation_spec_witness :
    cut_pdf_by_page_numbers fsOne "docs/a.pdf" 1 2
      = some ("docs/a_pages_1_to_2.pdf", [1, 2]) := by
  rw [((cut_operation_spec fsOne "docs/a.pdf" 1 2).1 3 (by decide)).1 (by decide)]
  decide
